import Mathlib

/-!
Verification of the DiaryAssistant interaction core.

A shallow embedding, in Lean 4, of the memory store (`user_profile.py`),
the transport client, the memory manager and the open-items digest
(`analyzer.py`).  Python strings are modelled as `String` (lists of
Unicode scalar values), Python's substring test, `str.replace`,
`str.strip` and the relevant regular expressions are modelled by
executable functions on `List Char`.  File I/O and logging side effects
are modelled by explicit state (a list of emitted log events); the
network and the JSON parser are modelled as explicit functional
parameters.
-/

namespace DiaryAssistant

/-- Python whitespace for `str.strip` and the regex class `\s`
(ASCII part; the modelled inputs contain no exotic Unicode spaces). -/
def pyIsSpace (c : Char) : Bool :=
  c = ' ' || c = '\t' || c = '\n' || c = '\r' || c = '\x0b' || c = '\x0c'

/-- `strStarts hay needle` : the character list `needle` begins `hay`
(Python `hay.startswith(needle)`). -/
def strStarts : List Char → List Char → Bool
  | _, [] => true
  | [], _ :: _ => false
  | h :: hs, n :: ns => h = n && strStarts hs ns

/-- `containsSub hay needle` : `needle` occurs contiguously inside `hay`
(Python `needle in hay`). -/
def containsSub : List Char → List Char → Bool
  | [], needle => needle.isEmpty
  | h :: hs, needle => strStarts (h :: hs) needle || containsSub hs needle

/-- Number of positions of `hay` at which `needle` occurs. -/
def countSub : List Char → List Char → Nat
  | [], needle => if needle.isEmpty then 1 else 0
  | h :: hs, needle =>
      (if strStarts (h :: hs) needle then 1 else 0) + countSub hs needle

/-- Fuel-driven core of `replaceAll` (fuel makes the recursion structural,
so that the kernel can evaluate it on concrete inputs). -/
def replaceAllAux (needle repl : List Char) : Nat → List Char → List Char
  | 0, l => l
  | _ + 1, [] => []
  | fuel + 1, c :: rest =>
      if needle ≠ [] ∧ strStarts (c :: rest) needle then
        repl ++ replaceAllAux needle repl fuel ((c :: rest).drop needle.length)
      else
        c :: replaceAllAux needle repl fuel rest

/-- Python `hay.replace(needle, repl)` for a nonempty pattern: replace all
non-overlapping occurrences, left to right.  (Every call site in the
modelled code guards the pattern to be nonempty; for an empty pattern this
model returns `hay` unchanged.) -/
def replaceAll (needle repl hay : List Char) : List Char :=
  replaceAllAux needle repl hay.length hay

/-- Python `s.replace(old, new)` on `String`. -/
def pyReplace (s old new : String) : String :=
  ⟨replaceAll old.data new.data s.data⟩

/-- Python `s.strip()` on character lists. -/
def stripChars (l : List Char) : List Char :=
  ((l.dropWhile pyIsSpace).reverse.dropWhile pyIsSpace).reverse

/-- Python `s.strip()` on `String`. -/
def pyStrip (s : String) : String :=
  ⟨stripChars s.data⟩

/-- Python `s.lower()` (ASCII part). -/
def pyLower (s : String) : String :=
  ⟨s.data.map Char.toLower⟩

/-- `sum(len(f) for f in facts)`, the capacity signal of the store. -/
def totalLen (facts : List String) : Nat :=
  (facts.map String.length).sum

-- ============================================================
-- user_profile.py : the memory store
-- ============================================================

namespace UserProfile

/-- One emitted log line (`logger.info` / `logger.warning`). -/
inductive LogEvent where
  | info (msg : String)
  | warning (msg : String)
deriving DecidableEq, Repr

/-- One entry of the `"update"` list of an instruction: the Python dict
`{"old": ..., "new": ...}`; `none` models a missing key (`dict.get`). -/
structure UpdateItem where
  old : Option String
  new : Option String
deriving DecidableEq, Repr

/-- The `operations` dict taken by `UserProfile.update`
(a missing key is modelled by the empty list, as `operations.get(k, [])`). -/
structure UpdateOps where
  add : List String
  remove : List String
  update : List UpdateItem
deriving DecidableEq, Repr

/-- The mutable state of one `UserProfile.update` call: the fact list plus
the log lines emitted and the three counters. -/
structure UpdateState where
  facts : List String
  log : List LogEvent
  added : Nat
  removed : Nat
  updated : Nat
deriving DecidableEq, Repr

/-- One iteration of the `# Handle Add` loop of `UserProfile.update`:
`if fact not in self.facts: self.facts.append(fact)`. -/
def addStep (s : UpdateState) (fact : String) : UpdateState :=
  if fact ∈ s.facts then s
  else { s with facts := s.facts ++ [fact], added := s.added + 1 }

/-- One iteration of the `# Handle Remove` loop of `UserProfile.update`:
skip a falsy fragment, else exact `list.remove`, else the fuzzy
(containment) candidate scan with its length-1 test. -/
def removeStep (s : UpdateState) (factToRemove : String) : UpdateState :=
  if factToRemove = "" then s
  else if factToRemove ∈ s.facts then
    { s with facts := s.facts.erase factToRemove, removed := s.removed + 1 }
  else
    match s.facts.filter (fun f => containsSub f.data factToRemove.data) with
    | [target] =>
        { s with facts := s.facts.erase target, removed := s.removed + 1,
                 log := s.log ++ [LogEvent.info ("Fuzzy removed: " ++ target)] }
    | _ =>
        { s with log := s.log ++
            [LogEvent.warning ("Could not find fact to remove: " ++ factToRemove)] }

/-- One iteration of the `# Handle Update` loop of `UserProfile.update`:
skip when `not old_fact or new_fact is None`, else exact `list.index` and
assignment, else the fuzzy candidate scan and `str.replace` of the matched
part. -/
def updateStep (s : UpdateState) (item : UpdateItem) : UpdateState :=
  match item.old, item.new with
  | some oldFact, some newFact =>
    if oldFact = "" then s
    else if oldFact ∈ s.facts then
      { s with facts := s.facts.set (s.facts.indexOf oldFact) newFact,
               updated := s.updated + 1 }
    else
      match s.facts.enum.filter (fun p => containsSub p.2.data oldFact.data) with
      | [(i, originalFact)] =>
          { s with facts := s.facts.set i (pyReplace originalFact oldFact newFact),
                   updated := s.updated + 1,
                   log := s.log ++ [LogEvent.info ("Fuzzy updated: " ++ originalFact)] }
      | _ =>
          { s with log := s.log ++
              [LogEvent.warning ("Could not find fact to update: " ++ oldFact)] }
  | _, _ => s

/-- `UserProfile.update`: the add loop, then the remove loop, then the
update loop, threading the store and the emitted log.  (The final
`save_profile` disk write is outside the model.) -/
def update (facts : List String) (ops : UpdateOps) : UpdateState :=
  ops.update.foldl updateStep
    (ops.remove.foldl removeStep
      (ops.add.foldl addStep
        { facts := facts, log := [], added := 0, removed := 0, updated := 0 }))

/-- `UserProfile.update_facts`: replace all facts with a new list. -/
def update_facts (_facts newFacts : List String) : List String :=
  newFacts

end UserProfile

-- ============================================================
-- analyzer.py : ApiClient (the transport client)
-- ============================================================

namespace ApiClient

/-- Observable events of `_send_with_retry` / `_stream_request`:
one numbered request attempt, one `time.sleep(2)`, and one visit to the
interactive escalation prompt. -/
inductive Ev where
  | attempt (i : Nat)
  | sleep2
  | escalate
deriving DecidableEq, Repr

/-- The outcome of `_send_with_retry`: a returned value (`none` models
Python `None`, the explicit skip), the `KeyboardInterrupt` raised on
abort, or exhaustion of the modelling fuel for the unbounded
`while True` loop. -/
inductive SendOutcome where
  | returned (content : Option String)
  | aborted
  | fuelOut
deriving DecidableEq, Repr

/-- The `for attempt in range(3)` loop of `_send_with_retry`.
`attempts i` is the outcome of the i-th request overall (`some c` a
successful `_stream_request` returning content `c`, `none` any raised
transport/HTTP/decode exception); `base` numbers the first attempt of the
round and `k` is the number of attempts left.  A failure that is not the
last attempt of the round is followed by `time.sleep(2)`. -/
def attemptLoop (attempts : Nat → Option String) : Nat → Nat → Option String × List Ev
  | _, 0 => (none, [])
  | base, k + 1 =>
    match attempts base with
    | some c => (some c, [Ev.attempt base])
    | none =>
      if k = 0 then (none, [Ev.attempt base])
      else
        let r := attemptLoop attempts (base + 1) k
        (r.1, Ev.attempt base :: Ev.sleep2 :: r.2)

/-- `_send_with_retry`: the unbounded `while True` loop around the
3-attempt round, with the interactive prompt after a fully failed round.
`choices i` is the operator's i-th `input(...)` answer (`'s'` skip,
`'q'` abort, anything else retries a full round); `fuel` bounds the
number of rounds so the recursion is total. -/
def sendWithRetry (attempts : Nat → Option String) (choices : Nat → String) :
    Nat → Nat → Nat → SendOutcome × List Ev
  | 0, _, _ => (SendOutcome.fuelOut, [])
  | fuel + 1, base, ci =>
    let round := attemptLoop attempts base 3
    match round.1 with
    | some c => (SendOutcome.returned (some c), round.2)
    | none =>
      let ch := pyLower (choices ci)
      if ch = "s" then (SendOutcome.returned none, round.2 ++ [Ev.escalate])
      else if ch = "q" then (SendOutcome.aborted, round.2 ++ [Ev.escalate])
      else
        let next := sendWithRetry attempts choices fuel (base + 3) (ci + 1)
        (next.1, round.2 ++ [Ev.escalate] ++ next.2)

/-- The token-usage object of a stream chunk (`chunk['usage']`). -/
structure UsageInfo where
  prompt_tokens : Nat
  completion_tokens : Nat
deriving DecidableEq, Repr

/-- The `delta` object of a stream chunk; `none` models a missing key or a
JSON `null` (both are turned into `''` by `delta.get(k, '') or ''`). -/
structure Delta where
  content : Option String
  reasoning_content : Option String
deriving DecidableEq, Repr

/-- One element of `chunk['choices']`; `delta = none` models a missing
`delta` key (`choices[0].get('delta', {})`). -/
structure ChoiceObj where
  delta : Option Delta
deriving DecidableEq, Repr

/-- A well-typed parsed stream chunk; any subset of the fields may be
absent. -/
structure Chunk where
  usage : Option UsageInfo
  choices : List ChoiceObj
deriving DecidableEq, Repr

/-- The accumulator of `_stream_request`: the concatenated content and
reasoning fragments, the last seen usage object, and whether the
`[DONE]` terminator was reached (modelling the `break`). -/
structure StreamState where
  content : String
  reasoning : String
  usage : Option UsageInfo
  done : Bool
deriving DecidableEq, Repr

/-- One iteration of the `for line in response.iter_lines()` loop of
`_stream_request`.  `parse` models `json.loads` on the chunk payload:
`none` is a `json.JSONDecodeError`, silently skipped by the
`except ... continue`. -/
def processLine (parse : String → Option Chunk) (st : StreamState) (line : String) :
    StreamState :=
  if st.done then st
  else if line = "" then st
  else if ¬ strStarts line.data "data: ".data then st
  else
    let jsonStr : String := ⟨line.data.drop 6⟩
    if jsonStr = "[DONE]" then { st with done := true }
    else
      match parse jsonStr with
      | none => st
      | some chunk =>
        let st1 := match chunk.usage with
          | some u => { st with usage := some u }
          | none => st
        match chunk.choices with
        | [] => st1
        | ch :: _ =>
          let delta := ch.delta.getD ⟨none, none⟩
          { st1 with
            content := st1.content ++ delta.content.getD "",
            reasoning := st1.reasoning ++ delta.reasoning_content.getD "" }

/-- The whole accumulation loop of `_stream_request` over the received
lines. -/
def streamAccumulate (parse : String → Option Chunk) (lines : List String) : StreamState :=
  lines.foldl (processLine parse) ⟨"", "", none, false⟩

end ApiClient

-- ============================================================
-- analyzer.py : MemoryManager
-- ============================================================

namespace MemoryManager

/-- The successful result of the `re.search` in
`extract_and_apply_updates`: `whole` is `group(0)` (the fenced block
including its fence), `inner` is `group(1)` (the braced JSON text). -/
structure MatchResult where
  whole : String
  inner : String
deriving DecidableEq, Repr

/-- A parsed memory-update JSON object; `memory_updates = none` models a
parsed object without the `"memory_updates"` top-level key. -/
structure ParsedUpdates where
  memory_updates : Option UserProfile.UpdateOps
deriving DecidableEq, Repr

/-- `MemoryManager.extract_and_apply_updates`.  The regex engine and
`json.loads` are passed in as functions: `search content` models the
`re.search` for the fenced memory-update block, `parse` models
`json.loads` (`none` = any parse exception, handled by the
`except` branch that returns the original content).  Returns the visible
narrative and the fact list after applying the instruction.  (The
follow-up `check_and_optimize` call is modelled separately by
`compressLoop` / `pruneStep`; it never changes the narrative.) -/
def extract_and_apply_updates
    (search : String → Option MatchResult)
    (parse : String → Option ParsedUpdates)
    (facts : List String) (content : String) : String × List String :=
  match search content with
  | none => (content, facts)
  | some m =>
    match parse m.inner with
    | none => (content, facts)
    | some updates =>
      let facts1 := match updates.memory_updates with
        | some ops => (UserProfile.update facts ops).facts
        | none => facts
      (pyStrip (pyReplace content m.whole ""), facts1)

/-- The `for attempt in range(3)` compaction loop inside
`check_and_optimize`.  `rounds i` is the parsed result of the i-th
`_compress_memory` call (`none` = the API skipped or the response could
not be parsed as a fact list).  A round is accepted only when
`new_facts` is truthy and `sum(len(f) for f in new_facts) >= 1200`;
then `update_facts` replaces the store.  Returns the store after the
loop, the success flag, and the next round index. -/
def compressLoop (rounds : Nat → Option (List String)) :
    Nat → Nat → List String → List String × Bool × Nat
  | 0, idx, facts => (facts, false, idx)
  | k + 1, idx, facts =>
    match rounds idx with
    | some newFacts =>
      if newFacts ≠ [] ∧ 1200 ≤ totalLen newFacts then (newFacts, true, idx + 1)
      else compressLoop rounds k (idx + 1) facts
    | none => compressLoop rounds k (idx + 1) facts

/-- The acceptance step of `_prune_if_needed`: the pruning round's parsed
result replaces the store only when truthy and of total length at least
1200. -/
def pruneStep (facts : List String) (result : Option (List String)) : List String :=
  match result with
  | some newFacts =>
    if newFacts ≠ [] ∧ 1200 ≤ totalLen newFacts then newFacts else facts
  | none => facts

end MemoryManager

-- ============================================================
-- analyzer.py : ContextBuilder.build_todo_context
-- ============================================================

namespace ContextBuilder

/-- `(y % 4 == 0 and y % 100 != 0) or y % 400 == 0` — the Gregorian leap
rule used by Python `datetime.date`. -/
def isLeap (y : Nat) : Bool :=
  (y % 4 = 0 && y % 100 ≠ 0) || y % 400 = 0

/-- Length of month `m` of year `y` (Python `calendar`/`date` rules). -/
def monthDays (y m : Nat) : Nat :=
  match m with
  | 1 => 31 | 2 => if isLeap y then 29 else 28 | 3 => 31 | 4 => 30
  | 5 => 31 | 6 => 30 | 7 => 31 | 8 => 31 | 9 => 30 | 10 => 31
  | 11 => 30 | 12 => 31 | _ => 0

/-- Days of year `y` strictly before month `m`. -/
def daysBeforeMonth (y m : Nat) : Nat :=
  let feb := if isLeap y then 29 else 28
  match m with
  | 1 => 0 | 2 => 31 | 3 => 31 + feb | 4 => 62 + feb | 5 => 92 + feb
  | 6 => 123 + feb | 7 => 153 + feb | 8 => 184 + feb | 9 => 215 + feb
  | 10 => 245 + feb | 11 => 276 + feb | 12 => 306 + feb | _ => 0

/-- Python `date(y, m, d).toordinal()` (proleptic Gregorian; day count
with `date(1, 1, 1).toordinal() = 1`).  `(a - b).days` for two dates is
the difference of their ordinals. -/
def dateOrd (y m d : Nat) : Nat :=
  365 * (y - 1) + (y - 1) / 4 - (y - 1) / 100 + (y - 1) / 400
    + daysBeforeMonth y m + d

/-- The dates accepted by `datetime.strptime(s, '%Y-%m-%d')` for a
`\d{4}-\d{2}-\d{2}` match: an invalid combination raises `ValueError`. -/
def isValidDate (y m d : Nat) : Bool :=
  1 ≤ y && y ≤ 9999 && 1 ≤ m && m ≤ 12 && 1 ≤ d && d ≤ monthDays y m

/-- The regex `^\[\s*[xX]?\s*\]` removal performed by
`re.sub(r'^\[\s*[xX]?\s*\]', '', todo)`: strip one leading checkbox
marker when present, else return the line unchanged. -/
def stripCheckbox (l : List Char) : List Char :=
  match l with
  | '[' :: rest =>
    match rest.dropWhile pyIsSpace with
    | ']' :: tail => tail
    | c :: tail =>
      if c = 'x' ∨ c = 'X' then
        match tail.dropWhile pyIsSpace with
        | ']' :: tail2 => tail2
        | _ => l
      else l
    | [] => l
  | _ => l

/-- The regex test `re.match(r'^\[\s*[xX]\s*\]', todo)`: the line starts
with a checked checkbox marker. -/
def isCompleted (l : List Char) : Bool :=
  match l with
  | '[' :: rest =>
    match rest.dropWhile pyIsSpace with
    | c :: tail =>
      (c = 'x' || c = 'X') &&
        (match tail.dropWhile pyIsSpace with
         | ']' :: _ => true
         | _ => false)
    | [] => false
  | _ => false

/-- ASCII digit test (the regex class `\d`). -/
def isDigitCh (c : Char) : Bool :=
  '0' ≤ c && c ≤ '9'

/-- Read exactly `k` digits into `acc`, returning the value and the rest. -/
def readDigits : Nat → List Char → Nat → Option (Nat × List Char)
  | 0, l, acc => some (acc, l)
  | _ + 1, [], _ => none
  | k + 1, c :: rest, acc =>
      if isDigitCh c then readDigits k rest (acc * 10 + (c.toNat - '0'.toNat))
      else none

/-- Attempt of the tail `\s*(\d{4}-\d{2}-\d{2})` of the completion-date
regex, at a position just after a `✅`. -/
def matchDateAt (l : List Char) : Option (Nat × Nat × Nat) :=
  match readDigits 4 (l.dropWhile pyIsSpace) 0 with
  | some (y, '-' :: rest2) =>
    match readDigits 2 rest2 0 with
    | some (m, '-' :: rest4) =>
      match readDigits 2 rest4 0 with
      | some (d, _) => some (y, m, d)
      | none => none
    | _ => none
  | _ => none

/-- `re.search(r'✅\s*(\d{4}-\d{2}-\d{2})', todo)`: scan left to right for
a `✅` followed by an (optionally space-separated) date. -/
def findCompletionDate : List Char → Option (Nat × Nat × Nat)
  | [] => none
  | c :: rest =>
    if c = '✅' then
      match matchDateAt rest with
      | some d => some d
      | none => findCompletionDate rest
    else findCompletionDate rest

/-- The per-line filter of `build_todo_context`, for a given value of
`today = datetime.now().date()` (as a `(year, month, day)` triple):
drop a line that is empty after stripping the checkbox marker; for a
completed line require a parseable completion date at most 7 days before
today; keep every other line. -/
def keepTodo (today : Nat × Nat × Nat) (todo : String) : Bool :=
  if (stripChars (stripCheckbox todo.data)).isEmpty then false
  else if isCompleted todo.data then
    match findCompletionDate todo.data with
    | some (y, m, d) =>
      if isValidDate y m d then
        decide ((dateOrd today.1 today.2.1 today.2.2 : Int) - dateOrd y m d ≤ 7)
      else false
    | none => false
  else true

/-- The grouping loop of `build_todo_context`: one section per diary entry
(given as its date string and its raw todo lines), keeping only entries
whose surviving todo list is nonempty. -/
def buildTodoParts (today : Nat × Nat × Nat)
    (diaries : List (String × List String)) : List (String × List String) :=
  diaries.filterMap (fun entry =>
    if entry.2 = [] then none
    else if entry.2.filter (keepTodo today) = [] then none
    else some (entry.1, entry.2.filter (keepTodo today)))

end ContextBuilder

-- ============================================================
-- Helper lemmas
-- ============================================================

theorem stringDataInj {a b : String} (h : a.data = b.data) : a = b := by
  cases a
  cases b
  exact congrArg String.mk h

theorem dataAppend (a b : String) : (a ++ b).data = a.data ++ b.data := by
  cases a
  cases b
  rfl

theorem dataEmpty : ("" : String).data = [] := rfl

theorem dataNeNil {a : String} (h : a ≠ "") : a.data ≠ [] := by
  intro hd
  exact h (stringDataInj (by simp [hd, dataEmpty]))

theorem strAppendEmpty (s : String) : s ++ "" = s := by
  apply stringDataInj
  simp [dataAppend, dataEmpty]

theorem strStarts_self_append (n q : List Char) : strStarts (n ++ q) n = true := by
  induction n with
  | nil => simp [strStarts]
  | cons c cs ih => simp [strStarts, ih]

theorem containsSub_nil_right (l : List Char) : containsSub l [] = true := by
  cases l <;> simp [containsSub, strStarts]

theorem containsSub_false_iff (hay n : List Char) :
    containsSub hay n = false ↔ countSub hay n = 0 := by
  induction hay with
  | nil =>
    by_cases h : n.isEmpty
    · simp [containsSub, countSub, h]
    · simp [containsSub, countSub, h]
  | cons c cs ih =>
    by_cases h : strStarts (c :: cs) n = true
    · simp [containsSub, countSub, h]
    · simp only [Bool.not_eq_true] at h
      simp [containsSub, countSub, h, ih]

theorem countSub_le_append (x q n : List Char) :
    countSub q n ≤ countSub (x ++ q) n := by
  induction x with
  | nil => simp
  | cons c cs ih =>
    calc countSub q n ≤ countSub (cs ++ q) n := ih
    _ ≤ countSub (c :: (cs ++ q)) n := by
        simp only [countSub]
        omega

theorem countSub_cons (c : Char) (cs n : List Char) :
    countSub (c :: cs) n
      = (if strStarts (c :: cs) n = true then 1 else 0) + countSub cs n := rfl

theorem replaceAllAux_cons (n r : List Char) (f : Nat) (c : Char) (rest : List Char) :
    replaceAllAux n r (f + 1) (c :: rest)
      = if n ≠ [] ∧ strStarts (c :: rest) n = true then
          r ++ replaceAllAux n r f ((c :: rest).drop n.length)
        else c :: replaceAllAux n r f rest := rfl

theorem drop_length_append (l₁ l₂ : List Char) :
    List.drop l₁.length (l₁ ++ l₂) = l₂ := by
  induction l₁ with
  | nil => rfl
  | cons c cs ih =>
    rw [List.cons_append, List.length_cons, List.drop_succ_cons]
    exact ih

theorem countSub_self_append (n q : List Char) (hn : n ≠ []) :
    1 + countSub (n.tail ++ q) n = countSub (n ++ q) n := by
  cases n with
  | nil => exact absurd rfl hn
  | cons c cs =>
    have hs : strStarts (c :: (cs ++ q)) (c :: cs) = true := by
      have := strStarts_self_append (c :: cs) q
      simpa using this
    rw [List.tail_cons, List.cons_append, countSub_cons, if_pos hs]

theorem replaceAllAux_not_contains (n r : List Char) :
    ∀ (fuel : Nat) (hay : List Char), hay.length ≤ fuel →
      containsSub hay n = false → replaceAllAux n r fuel hay = hay := by
  intro fuel
  induction fuel with
  | zero =>
    intro hay _ _
    rfl
  | succ f ih =>
    intro hay hlen hc
    cases hay with
    | nil => rfl
    | cons c cs =>
      have hss : strStarts (c :: cs) n = false := by
        by_cases h : strStarts (c :: cs) n = true
        · simp [containsSub, h] at hc
        · simpa using h
      have hcs : containsSub cs n = false := by
        by_cases h : containsSub cs n = true
        · simp [containsSub, h] at hc
        · simpa using h
      have hcond : ¬ (n ≠ [] ∧ strStarts (c :: cs) n = true) := by
        intro h
        simp [h.2] at hss
      simp only [replaceAllAux, if_neg hcond]
      have hlen' : cs.length ≤ f := by
        simp only [List.length_cons] at hlen
        omega
      rw [ih cs hlen' hcs]

theorem replaceAllAux_unique (n r : List Char) (hn : n ≠ []) :
    ∀ (p : List Char) (fuel : Nat) (q : List Char),
      (p ++ (n ++ q)).length ≤ fuel →
      countSub (p ++ (n ++ q)) n = 1 →
      replaceAllAux n r fuel (p ++ (n ++ q)) = p ++ (r ++ q) := by
  intro p
  induction p with
  | nil =>
    intro fuel q hlen hcount
    obtain ⟨c, cs, hcc⟩ := List.exists_cons_of_ne_nil hn
    subst hcc
    rw [List.nil_append] at hlen hcount ⊢
    rw [List.cons_append] at hlen hcount ⊢
    cases fuel with
    | zero => simp at hlen
    | succ f =>
      have hs : strStarts (c :: (cs ++ q)) (c :: cs) = true := by
        have := strStarts_self_append (c :: cs) q
        simpa using this
      have hq0 : countSub q (c :: cs) = 0 := by
        have h1 := countSub_self_append (c :: cs) q (by simp)
        have h2 := countSub_le_append cs q (c :: cs)
        rw [List.tail_cons, List.cons_append] at h1
        omega
      have hqlen : q.length ≤ f := by
        rw [List.length_cons, List.length_append] at hlen
        omega
      have hdrop : List.drop (c :: cs).length (c :: (cs ++ q)) = q := by
        rw [← List.cons_append]
        exact drop_length_append (c :: cs) q
      rw [replaceAllAux_cons, if_pos ⟨hn, hs⟩, List.nil_append, hdrop]
      rw [replaceAllAux_not_contains (c :: cs) r f q hqlen
            ((containsSub_false_iff q (c :: cs)).mpr hq0)]
  | cons a p' ih =>
    intro fuel q hlen hcount
    rw [List.cons_append] at hlen hcount ⊢
    cases fuel with
    | zero => simp at hlen
    | succ f =>
      have hin : 1 ≤ countSub (p' ++ (n ++ q)) n := by
        have h1 := countSub_self_append n q hn
        have h2 := countSub_le_append p' (n ++ q) n
        omega
      have hss : strStarts (a :: (p' ++ (n ++ q))) n = false := by
        by_cases h : strStarts (a :: (p' ++ (n ++ q))) n = true
        · exfalso
          rw [countSub_cons, if_pos h] at hcount
          omega
        · simpa using h
      have hcond : ¬ (n ≠ [] ∧ strStarts (a :: (p' ++ (n ++ q))) n = true) := by
        intro h
        simp [h.2] at hss
      have hc' : countSub (p' ++ (n ++ q)) n = 1 := by
        rw [countSub_cons] at hcount
        rw [hss] at hcount
        simpa using hcount
      have hl' : (p' ++ (n ++ q)).length ≤ f := by
        rw [List.length_cons] at hlen
        omega
      rw [replaceAllAux_cons, if_neg hcond, ih f q hl' hc', List.cons_append]

theorem pyReplace_unique (p old q new : String) (hold : old ≠ "")
    (huniq : countSub (p ++ old ++ q).data old.data = 1) :
    pyReplace (p ++ old ++ q) old new = p ++ new ++ q := by
  apply stringDataInj
  have hd : (p ++ old ++ q).data = p.data ++ (old.data ++ q.data) := by
    simp [dataAppend]
  have hd2 : (p ++ new ++ q).data = p.data ++ (new.data ++ q.data) := by
    simp [dataAppend]
  rw [show pyReplace (p ++ old ++ q) old new
        = ⟨replaceAll old.data new.data (p ++ old ++ q).data⟩ from rfl]
  simp only [hd, hd2, replaceAll]
  exact replaceAllAux_unique old.data new.data (dataNeNil hold) p.data _ q.data
    (le_refl _) (by rw [← hd]; exact huniq)

namespace UserProfile

theorem addStep_mem {s : UpdateState} {f : String} (h : f ∈ s.facts) :
    addStep s f = s := by
  simp [addStep, h]

theorem addStep_not_mem {s : UpdateState} {f : String} (h : f ∉ s.facts) :
    addStep s f = { s with facts := s.facts ++ [f], added := s.added + 1 } := by
  simp [addStep, h]

theorem removeStep_facts_congr (s s' : UpdateState) (r : String)
    (h : s.facts = s'.facts) :
    (removeStep s r).facts = (removeStep s' r).facts := by
  unfold removeStep
  rw [h]
  split_ifs
  · exact h
  · rfl
  · rcases hf : s'.facts.filter (fun f => containsSub f.data r.data) with _ | ⟨t, _ | ⟨t2, ts⟩⟩
    · rw [hf]
    · rw [hf]
    · rw [hf]

theorem updateStep_some_some (s : UpdateState) (oldF newF : String) :
    updateStep s ⟨some oldF, some newF⟩
      = if oldF = "" then s
        else if oldF ∈ s.facts then
          { s with facts := s.facts.set (s.facts.indexOf oldF) newF,
                   updated := s.updated + 1 }
        else
          match s.facts.enum.filter (fun p => containsSub p.2.data oldF.data) with
          | [(i, originalFact)] =>
              { s with facts := s.facts.set i (pyReplace originalFact oldF newF),
                       updated := s.updated + 1,
                       log := s.log ++ [LogEvent.info ("Fuzzy updated: " ++ originalFact)] }
          | _ =>
              { s with log := s.log ++
                  [LogEvent.warning ("Could not find fact to update: " ++ oldF)] } := rfl

theorem updateStep_facts_congr (s s' : UpdateState) (it : UpdateItem)
    (h : s.facts = s'.facts) :
    (updateStep s it).facts = (updateStep s' it).facts := by
  rcases it with ⟨o, nw⟩
  rcases o with _ | oldF
  · cases nw <;> exact h
  rcases nw with _ | newF
  · exact h
  rw [updateStep_some_some, updateStep_some_some, h]
  split_ifs
  · exact h
  · rfl
  · rcases hf : s'.facts.enum.filter (fun p => containsSub p.2.data oldF.data)
        with _ | ⟨⟨i, orig⟩, _ | ⟨y, ys⟩⟩
    · rw [hf]
    · rw [hf]
    · rw [hf]

theorem foldl_removeStep_facts_congr (l : List String) :
    ∀ (s s' : UpdateState), s.facts = s'.facts →
      (l.foldl removeStep s).facts = (l.foldl removeStep s').facts := by
  induction l with
  | nil => intro s s' h; exact h
  | cons r rest ih =>
    intro s s' h
    exact ih _ _ (removeStep_facts_congr s s' r h)

theorem foldl_updateStep_facts_congr (l : List UpdateItem) :
    ∀ (s s' : UpdateState), s.facts = s'.facts →
      (l.foldl updateStep s).facts = (l.foldl updateStep s').facts := by
  induction l with
  | nil => intro s s' h; exact h
  | cons it rest ih =>
    intro s s' h
    exact ih _ _ (updateStep_facts_congr s s' it h)

theorem addStep_inv (s : UpdateState) (f : String)
    (hnd : s.facts.Nodup) (hne : "" ∉ s.facts) (hf : f ≠ "") :
    (addStep s f).facts.Nodup ∧ "" ∉ (addStep s f).facts := by
  by_cases h : f ∈ s.facts
  · rw [addStep_mem h]
    exact ⟨hnd, hne⟩
  · rw [addStep_not_mem h]
    refine ⟨?_, ?_⟩
    · simp [List.nodup_append, hnd, h]
    · intro hmem
      rcases List.mem_append.mp hmem with h1 | h1
      · exact hne h1
      · simp at h1
        exact hf h1.symm

theorem removeStep_inv (s : UpdateState) (r : String)
    (hnd : s.facts.Nodup) (hne : "" ∉ s.facts) :
    (removeStep s r).facts.Nodup ∧ "" ∉ (removeStep s r).facts := by
  unfold removeStep
  split_ifs
  · exact ⟨hnd, hne⟩
  · exact ⟨hnd.erase _, fun hm => hne (List.mem_of_mem_erase hm)⟩
  · rcases hf : s.facts.filter (fun f => containsSub f.data r.data) with _ | ⟨t, _ | ⟨t2, ts⟩⟩
    · rw [hf]
      exact ⟨hnd, hne⟩
    · rw [hf]
      exact ⟨hnd.erase _, fun hm => hne (List.mem_of_mem_erase hm)⟩
    · rw [hf]
      exact ⟨hnd, hne⟩

theorem foldl_addStep_inv (l : List String) :
    ∀ (s : UpdateState), s.facts.Nodup → "" ∉ s.facts → "" ∉ l →
      (l.foldl addStep s).facts.Nodup ∧ "" ∉ (l.foldl addStep s).facts := by
  induction l with
  | nil => intro s hnd hne _; exact ⟨hnd, hne⟩
  | cons f rest ih =>
    intro s hnd hne hl
    have hf : f ≠ "" := by
      intro hh
      exact hl (by simp [hh])
    have h := addStep_inv s f hnd hne hf
    exact ih _ h.1 h.2 (fun hm => hl (List.mem_cons_of_mem _ hm))

theorem foldl_removeStep_inv (l : List String) :
    ∀ (s : UpdateState), s.facts.Nodup → "" ∉ s.facts →
      (l.foldl removeStep s).facts.Nodup ∧ "" ∉ (l.foldl removeStep s).facts := by
  induction l with
  | nil => intro s hnd hne; exact ⟨hnd, hne⟩
  | cons r rest ih =>
    intro s hnd hne
    have h := removeStep_inv s r hnd hne
    exact ih _ h.1 h.2

end UserProfile

-- ============================================================
-- Claim theorems
-- ============================================================

open UserProfile ApiClient MemoryManager ContextBuilder

/-- **C2, counterexample.**  The claim says every memory-store operation
preserves the invariant "facts pairwise distinct and nonempty".  It fails:
on the invariant-satisfying store `["a", "b"]`, the update sub-operation
`{old: "a", new: "b"}` resolves exactly and overwrites slot 0 with `"b"`,
leaving the duplicated store `["b", "b"]`. -/
theorem c2_counterexample :
    (["a", "b"] : List String).Nodup
  ∧ "" ∉ (["a", "b"] : List String)
  ∧ (UserProfile.update ["a", "b"] ⟨[], [], [⟨some "a", some "b"⟩]⟩).facts = ["b", "b"]
  ∧ ¬ (UserProfile.update ["a", "b"] ⟨[], [], [⟨some "a", some "b"⟩]⟩).facts.Nodup := by
  exact ⟨by decide, by decide, by decide, by decide⟩

/-- **C2, amended.**  The add and remove sub-operations of
`UserProfile.update` do preserve the store invariant (facts pairwise
distinct by exact text equality, no fact empty) provided the added facts
are nonempty; update sub-operations and `update_facts` (replace-all) do
not preserve it in general (see the counterexample). -/
theorem c2_add_remove_preserve_invariant (facts : List String) (ops : UpdateOps)
    (hnd : facts.Nodup) (hne : "" ∉ facts)
    (hupd : ops.update = []) (hadd : "" ∉ ops.add) :
    (UserProfile.update facts ops).facts.Nodup
  ∧ "" ∉ (UserProfile.update facts ops).facts := by
  have h1 := foldl_addStep_inv ops.add
    { facts := facts, log := [], added := 0, removed := 0, updated := 0 }
    hnd hne hadd
  have h2 := foldl_removeStep_inv ops.remove _ h1.1 h1.2
  rw [UserProfile.update, hupd, List.foldl_nil]
  exact h2

/-- **C2, witness** for the amended theorem at a concrete input. -/
theorem c2_witness :
    (UserProfile.update ["a"] ⟨["b"], ["nope"], []⟩).facts.Nodup
  ∧ "" ∉ (UserProfile.update ["a"] ⟨["b"], ["nope"], []⟩).facts :=
  c2_add_remove_preserve_invariant ["a"] ⟨["b"], ["nope"], []⟩
    (by decide) (by decide) rfl (by decide)

/-- **C3.**  Adding a fact is idempotent: `addStep` applied twice with the
same fact equals one application (so an instruction `{add: [f, f]}` acts
like `{add: [f]}`); a fact is appended only when no exact-text duplicate
exists, and a duplicate add changes nothing and logs nothing (silently
ignored, not an error). -/
theorem c3_add_idempotent (s : UpdateState) (f : String) (facts : List String) :
    addStep (addStep s f) f = addStep s f
  ∧ (addStep s f).facts = (if f ∈ s.facts then s.facts else s.facts ++ [f])
  ∧ (addStep s f).log = s.log
  ∧ UserProfile.update facts ⟨[f, f], [], []⟩ = UserProfile.update facts ⟨[f], [], []⟩ := by
  have hidem : ∀ (t : UpdateState) (g : String), addStep (addStep t g) g = addStep t g := by
    intro t g
    by_cases h : g ∈ t.facts
    · rw [addStep_mem h, addStep_mem h]
    · rw [addStep_not_mem h]
      exact addStep_mem (by simp)
  refine ⟨hidem s f, ?_, ?_, ?_⟩
  · by_cases h : f ∈ s.facts
    · rw [addStep_mem h, if_pos h]
    · rw [addStep_not_mem h, if_neg h]
  · by_cases h : f ∈ s.facts
    · rw [addStep_mem h]
    · rw [addStep_not_mem h]
  · simp only [UserProfile.update, List.foldl_cons, List.foldl_nil]
    rw [hidem]

/-- **C1, counterexample.**  The claim's target resolution, read literally
for every sub-operation, fails for the empty fragment: on the store
`[""]` the remove fragment `""` equals a stored fact exactly, so the
claim targets (removes) it, but `UserProfile.update` skips falsy
fragments before any resolution and leaves the store unchanged. -/
theorem c1_counterexample :
    ("" ∈ ([""] : List String))
  ∧ (UserProfile.update [""] ⟨[], [""], []⟩).facts = [""]
  ∧ (UserProfile.update [""] ⟨[], [""], []⟩).facts ≠ ([""] : List String).erase "" := by
  exact ⟨by decide, by decide, by decide⟩

/-- **C1, amended.**  For every remove or update sub-operation whose
fragment is nonempty (and, for update, whose new text is present —
empty/missing ones are skipped, see C10), target resolution of
`UserProfile.update` proceeds as the claim states: an exact full-text
match is targeted first (unconditionally, hence even if the fragment is
also a substring of another fact); otherwise a fragment contained in
exactly one stored fact targets that fact; otherwise (zero or several
candidates) the sub-operation leaves the store unchanged, appends a
warning to the log, and the remaining sibling sub-operations are still
applied to the unchanged store. -/
theorem c1_target_resolution (s : UpdateState) (frag oldF newF : String)
    (hfrag : frag ≠ "") (holdF : oldF ≠ "") :
    (frag ∈ s.facts →
      removeStep s frag
        = { s with facts := s.facts.erase frag, removed := s.removed + 1 })
  ∧ (frag ∉ s.facts → ∀ t,
      s.facts.filter (fun f => containsSub f.data frag.data) = [t] →
      (removeStep s frag).facts = s.facts.erase t)
  ∧ (frag ∉ s.facts →
      (s.facts.filter (fun f => containsSub f.data frag.data)).length ≠ 1 →
      (removeStep s frag).facts = s.facts
      ∧ (removeStep s frag).log
          = s.log ++ [LogEvent.warning ("Could not find fact to remove: " ++ frag)])
  ∧ (oldF ∈ s.facts →
      (updateStep s ⟨some oldF, some newF⟩).facts
        = s.facts.set (s.facts.indexOf oldF) newF)
  ∧ (oldF ∉ s.facts → ∀ i orig,
      s.facts.enum.filter (fun p => containsSub p.2.data oldF.data) = [(i, orig)] →
      (updateStep s ⟨some oldF, some newF⟩).facts
        = s.facts.set i (pyReplace orig oldF newF))
  ∧ (oldF ∉ s.facts →
      (s.facts.enum.filter (fun p => containsSub p.2.data oldF.data)).length ≠ 1 →
      (updateStep s ⟨some oldF, some newF⟩).facts = s.facts
      ∧ (updateStep s ⟨some oldF, some newF⟩).log
          = s.log ++ [LogEvent.warning ("Could not find fact to update: " ++ oldF)])
  ∧ (∀ rest : List String, frag ∉ s.facts →
      (s.facts.filter (fun f => containsSub f.data frag.data)).length ≠ 1 →
      ((frag :: rest).foldl removeStep s).facts = (rest.foldl removeStep s).facts)
  ∧ (∀ rest : List UpdateItem, oldF ∉ s.facts →
      (s.facts.enum.filter (fun p => containsSub p.2.data oldF.data)).length ≠ 1 →
      (((⟨some oldF, some newF⟩ : UpdateItem) :: rest).foldl updateStep s).facts
        = (rest.foldl updateStep s).facts) := by
  have hremAmb : frag ∉ s.facts →
      (s.facts.filter (fun f => containsSub f.data frag.data)).length ≠ 1 →
      removeStep s frag
        = { s with log := s.log ++
            [LogEvent.warning ("Could not find fact to remove: " ++ frag)] } := by
    intro hnm hlen
    unfold removeStep
    rw [if_neg hfrag, if_neg hnm]
    rcases hf : s.facts.filter (fun f => containsSub f.data frag.data)
        with _ | ⟨t, _ | ⟨t2, ts⟩⟩
    · rw [hf]
    · exact absurd (by rw [hf]; rfl) hlen
    · rw [hf]
  have hupdAmb : oldF ∉ s.facts →
      (s.facts.enum.filter (fun p => containsSub p.2.data oldF.data)).length ≠ 1 →
      updateStep s ⟨some oldF, some newF⟩
        = { s with log := s.log ++
            [LogEvent.warning ("Could not find fact to update: " ++ oldF)] } := by
    intro hnm hlen
    rw [updateStep_some_some, if_neg holdF, if_neg hnm]
    rcases hf : s.facts.enum.filter (fun p => containsSub p.2.data oldF.data)
        with _ | ⟨⟨i, orig⟩, _ | ⟨y, ys⟩⟩
    · rw [hf]
    · exact absurd (by rw [hf]; rfl) hlen
    · rw [hf]
  refine ⟨?_, ?_, ?_, ?_, ?_, ?_, ?_, ?_⟩
  · intro hmem
    unfold removeStep
    rw [if_neg hfrag, if_pos hmem]
  · intro hnm t hf
    unfold removeStep
    rw [if_neg hfrag, if_neg hnm, hf]
  · intro hnm hlen
    rw [hremAmb hnm hlen]
    exact ⟨rfl, rfl⟩
  · intro hmem
    rw [updateStep_some_some, if_neg holdF, if_pos hmem]
  · intro hnm i orig hf
    rw [updateStep_some_some, if_neg holdF, if_neg hnm, hf]
  · intro hnm hlen
    rw [hupdAmb hnm hlen]
    exact ⟨rfl, rfl⟩
  · intro rest hnm hlen
    rw [List.foldl_cons, hremAmb hnm hlen]
    exact foldl_removeStep_facts_congr rest _ s rfl
  · intro rest hnm hlen
    rw [List.foldl_cons, hupdAmb hnm hlen]
    exact foldl_updateStep_facts_congr rest _ s rfl

/-- **C1, witness**: the spec's own §8 examples.  `"Acme"` is contained in
exactly one fact and removes it; `"likes"` is contained in two facts and
removes nothing. -/
theorem c1_witness :
    (removeStep ⟨["enjoys morning runs", "works at Acme"], [], 0, 0, 0⟩ "Acme").facts
      = ["enjoys morning runs"]
  ∧ (removeStep ⟨["likes tea", "likes coffee"], [], 0, 0, 0⟩ "likes").facts
      = ["likes tea", "likes coffee"] := by
  constructor
  · have h := (c1_target_resolution ⟨["enjoys morning runs", "works at Acme"], [], 0, 0, 0⟩
        "Acme" "a" "b" (by decide) (by decide)).2.1 (by decide) "works at Acme" (by decide)
    rw [h]
    decide
  · have h := (c1_target_resolution ⟨["likes tea", "likes coffee"], [], 0, 0, 0⟩
        "likes" "a" "b" (by decide) (by decide)).2.2.1 (by decide) (by decide)
    rw [h.1]

/-- **C4.**  When an update sub-operation falls through to fuzzy matching
and exactly one stored fact contains the old fragment, that fact becomes
`str.replace(fact, old, new)`; in particular, when the fragment occurs at
a single position of the fact `p ++ old ++ q`, only that occurrence is
replaced and the surrounding text `p`, `q` is preserved unchanged — the
whole fact is not replaced. -/
theorem c4_fuzzy_update_replaces_match (s : UpdateState) (oldF newF : String)
    (i : Nat) (orig : String)
    (holdF : oldF ≠ "")
    (hnm : oldF ∉ s.facts)
    (hf : s.facts.enum.filter (fun p => containsSub p.2.data oldF.data) = [(i, orig)]) :
    (updateStep s ⟨some oldF, some newF⟩).facts
      = s.facts.set i (pyReplace orig oldF newF)
  ∧ (∀ p q : String, orig = p ++ oldF ++ q →
      countSub orig.data oldF.data = 1 →
      (updateStep s ⟨some oldF, some newF⟩).facts
        = s.facts.set i (p ++ newF ++ q)) := by
  have hbase : (updateStep s ⟨some oldF, some newF⟩).facts
      = s.facts.set i (pyReplace orig oldF newF) := by
    rw [updateStep_some_some, if_neg holdF, if_neg hnm, hf]
  refine ⟨hbase, ?_⟩
  intro p q hdecomp huniq
  rw [hbase, hdecomp]
  rw [pyReplace_unique p oldF q newF holdF (by rw [← hdecomp]; exact huniq)]

/-- **C4, witness** at a concrete input: `"oolong"` occurs (once) in
exactly one fact; only that occurrence is rewritten. -/
theorem c4_witness :
    (updateStep ⟨["likes tea", "drinks oolong tea daily"], [], 0, 0, 0⟩
        ⟨some "oolong", some "green"⟩).facts
      = ["likes tea", "drinks green tea daily"] := by
  have h := (c4_fuzzy_update_replaces_match
      ⟨["likes tea", "drinks oolong tea daily"], [], 0, 0, 0⟩
      "oolong" "green" 1 "drinks oolong tea daily"
      (by decide) (by decide) (by decide)).2
      "drinks " " tea daily" (by decide) (by decide)
  rw [h]
  decide

/-- **C10.**  An empty remove fragment, an update item with a missing or
empty old fragment, and an update item with a missing new text are all
skipped with no effect on the store (state, log and counters unchanged);
this matters because the empty string is a substring of every fact
(`containsSub f "" = true`), so treating it as a fuzzy pattern would match
every stored fact. -/
theorem c10_empty_fragments_skipped (s : UpdateState) (x : String)
    (n : Option String) (f : String) :
    removeStep s "" = s
  ∧ updateStep s ⟨none, n⟩ = s
  ∧ updateStep s ⟨some "", n⟩ = s
  ∧ updateStep s ⟨some x, none⟩ = s
  ∧ containsSub f.data ("" : String).data = true := by
  refine ⟨by simp [removeStep], ?_, ?_, rfl, containsSub_nil_right f.data⟩
  · cases n <;> rfl
  · cases n with
    | none => rfl
    | some nv => simp [updateStep]

/-- **C5, counterexample.**  The claim says the located block (including
its fence) is removed from the narrative exactly once.  The code uses
`content.replace(json_match.group(0), "")`, which removes **every**
occurrence of the matched text (and then strips the result): on a
content consisting of the same block twice around `"x"`, both copies
disappear, whereas removal of the located block exactly once would leave
the second copy. -/
theorem c5_counterexample :
    (MemoryManager.extract_and_apply_updates
        (fun c =>
          if c = "```json\n\x7b\"memory_updates\": \x7b\"add\": []\x7d\x7d\n```" ++ "x"
                  ++ "```json\n\x7b\"memory_updates\": \x7b\"add\": []\x7d\x7d\n```"
          then some ⟨"```json\n\x7b\"memory_updates\": \x7b\"add\": []\x7d\x7d\n```",
                     "\x7b\"memory_updates\": \x7b\"add\": []\x7d\x7d"⟩
          else none)
        (fun _ => some ⟨some ⟨[], [], []⟩⟩) []
        ("```json\n\x7b\"memory_updates\": \x7b\"add\": []\x7d\x7d\n```" ++ "x"
            ++ "```json\n\x7b\"memory_updates\": \x7b\"add\": []\x7d\x7d\n```")).1 = "x"
  ∧ ("x" : String)
      ≠ "x" ++ "```json\n\x7b\"memory_updates\": \x7b\"add\": []\x7d\x7d\n```" := by
  exact ⟨by decide, by decide⟩

/-- **C5, amended.**  For every content on which the block search
succeeds: if JSON parsing of the block fails the original content is
returned unmodified (and no exception escapes — the model is total);
if parsing succeeds, the narrative is the content with **every**
occurrence of the located block's text removed and the result stripped
of surrounding whitespace — in particular, when the block's text occurs
at exactly one position `a ++ block ++ b`, the narrative is the stripped
concatenation `a ++ b`, i.e. the content with the block removed once. -/
theorem extract_eq_of_search (search : String → Option MatchResult)
    (parse : String → Option ParsedUpdates) (facts : List String)
    (content : String) (m : MatchResult) (hs : search content = some m) :
    MemoryManager.extract_and_apply_updates search parse facts content
      = match parse m.inner with
        | none => (content, facts)
        | some updates =>
          (pyStrip (pyReplace content m.whole ""),
           match updates.memory_updates with
           | some ops => (UserProfile.update facts ops).facts
           | none => facts) := by
  unfold MemoryManager.extract_and_apply_updates
  rw [hs]

theorem c5_extraction_contract (search : String → Option MatchResult)
    (parse : String → Option ParsedUpdates) (facts : List String)
    (content a b : String) (m : MatchResult)
    (hs : search content = some m) :
    (parse m.inner = none →
      MemoryManager.extract_and_apply_updates search parse facts content
        = (content, facts))
  ∧ (∀ u, parse m.inner = some u → content = a ++ m.whole ++ b →
      m.whole ≠ "" → countSub content.data m.whole.data = 1 →
      (MemoryManager.extract_and_apply_updates search parse facts content).1
        = pyStrip (a ++ b)) := by
  constructor
  · intro hp
    rw [extract_eq_of_search search parse facts content m hs, hp]
  · intro u hp hdec hwne huniq
    rw [extract_eq_of_search search parse facts content m hs, hp]
    have hrepl : pyReplace content m.whole "" = a ++ "" ++ b := by
      rw [hdec]
      exact pyReplace_unique a m.whole b "" hwne (by rw [← hdec]; exact huniq)
    show pyStrip (pyReplace content m.whole "") = pyStrip (a ++ b)
    rw [hrepl, strAppendEmpty]

/-- **C5, witness** for the amended theorem: one block occurrence after a
narrative line; the block is removed and the trailing newline stripped. -/
theorem c5_witness :
    (MemoryManager.extract_and_apply_updates
        (fun c =>
          if c = "hello\n" ++ "```json\n\x7b\"memory_updates\": \x7b\"add\": []\x7d\x7d\n```"
          then some ⟨"```json\n\x7b\"memory_updates\": \x7b\"add\": []\x7d\x7d\n```",
                     "\x7b\"memory_updates\": \x7b\"add\": []\x7d\x7d"⟩
          else none)
        (fun s =>
          if s = "\x7b\"memory_updates\": \x7b\"add\": []\x7d\x7d"
          then some ⟨some ⟨[], [], []⟩⟩ else none) []
        ("hello\n" ++ "```json\n\x7b\"memory_updates\": \x7b\"add\": []\x7d\x7d\n```")).1
      = "hello" := by
  have h := (c5_extraction_contract
      (fun c =>
        if c = "hello\n" ++ "```json\n\x7b\"memory_updates\": \x7b\"add\": []\x7d\x7d\n```"
        then some ⟨"```json\n\x7b\"memory_updates\": \x7b\"add\": []\x7d\x7d\n```",
                   "\x7b\"memory_updates\": \x7b\"add\": []\x7d\x7d"⟩
        else none)
      (fun s =>
        if s = "\x7b\"memory_updates\": \x7b\"add\": []\x7d\x7d"
        then some ⟨some ⟨[], [], []⟩⟩ else none) []
      ("hello\n" ++ "```json\n\x7b\"memory_updates\": \x7b\"add\": []\x7d\x7d\n```")
      "hello\n" ""
      ⟨"```json\n\x7b\"memory_updates\": \x7b\"add\": []\x7d\x7d\n```",
       "\x7b\"memory_updates\": \x7b\"add\": []\x7d\x7d"⟩
      (by decide)).2 ⟨some ⟨[], [], []⟩⟩ (by decide) (by decide) (by decide) (by decide)
  rw [h]
  decide

/-- Unfolding equation of `attemptLoop` for a positive attempt budget. -/
theorem attemptLoop_succ (attempts : Nat → Option String) (base k : Nat) :
    attemptLoop attempts base (k + 1)
      = match attempts base with
        | some c => (some c, [Ev.attempt base])
        | none =>
          if k = 0 then (none, [Ev.attempt base])
          else
            ((attemptLoop attempts (base + 1) k).1,
              Ev.attempt base :: Ev.sleep2 :: (attemptLoop attempts (base + 1) k).2) := rfl

/-- Unfolding equation of `sendWithRetry` for a positive round budget. -/
theorem sendWithRetry_succ (attempts : Nat → Option String) (choices : Nat → String)
    (fuel base ci : Nat) :
    sendWithRetry attempts choices (fuel + 1) base ci
      = match (attemptLoop attempts base 3).1 with
        | some c => (SendOutcome.returned (some c), (attemptLoop attempts base 3).2)
        | none =>
          if pyLower (choices ci) = "s" then
            (SendOutcome.returned none, (attemptLoop attempts base 3).2 ++ [Ev.escalate])
          else if pyLower (choices ci) = "q" then
            (SendOutcome.aborted, (attemptLoop attempts base 3).2 ++ [Ev.escalate])
          else
            ((sendWithRetry attempts choices fuel (base + 3) (ci + 1)).1,
              (attemptLoop attempts base 3).2 ++ [Ev.escalate]
                ++ (sendWithRetry attempts choices fuel (base + 3) (ci + 1)).2) := rfl

/-- **C6.**  The transport client's retry policy: a round makes up to 3
attempts with one 2-second sleep between consecutive attempts, stopping
at the first success (so the escalation prompt is never reached before
the 3rd consecutive failure); after 3 consecutive failures the round's
event trace ends with exactly one escalation, after the 3rd attempt; the
operator's answer then yields skip (`None` returned for this call),
abort (the distinct user-termination outcome), or — for any other
answer — a fresh full 3-attempt round appended to the trace. -/
theorem c6_retry_policy (attempts : Nat → Option String) (choices : Nat → String)
    (fuel base ci : Nat)
    (h0 : attempts base = none) (h1 : attempts (base + 1) = none)
    (h2 : attempts (base + 2) = none) :
    (attemptLoop attempts base 3
      = (none, [Ev.attempt base, Ev.sleep2, Ev.attempt (base + 1),
                Ev.sleep2, Ev.attempt (base + 2)]))
  ∧ (pyLower (choices ci) = "s" →
      sendWithRetry attempts choices (fuel + 1) base ci
        = (SendOutcome.returned none,
           [Ev.attempt base, Ev.sleep2, Ev.attempt (base + 1),
            Ev.sleep2, Ev.attempt (base + 2), Ev.escalate]))
  ∧ (pyLower (choices ci) = "q" →
      sendWithRetry attempts choices (fuel + 1) base ci
        = (SendOutcome.aborted,
           [Ev.attempt base, Ev.sleep2, Ev.attempt (base + 1),
            Ev.sleep2, Ev.attempt (base + 2), Ev.escalate]))
  ∧ (pyLower (choices ci) ≠ "s" → pyLower (choices ci) ≠ "q" →
      sendWithRetry attempts choices (fuel + 1) base ci
        = ((sendWithRetry attempts choices fuel (base + 3) (ci + 1)).1,
           [Ev.attempt base, Ev.sleep2, Ev.attempt (base + 1),
            Ev.sleep2, Ev.attempt (base + 2), Ev.escalate]
             ++ (sendWithRetry attempts choices fuel (base + 3) (ci + 1)).2))
  ∧ (∀ (att2 : Nat → Option String) (c : String), att2 base = some c →
      attemptLoop att2 base 3 = (some c, [Ev.attempt base]))
  ∧ (∀ (att2 : Nat → Option String) (c : String),
      att2 base = none → att2 (base + 1) = some c →
      attemptLoop att2 base 3
        = (some c, [Ev.attempt base, Ev.sleep2, Ev.attempt (base + 1)]))
  ∧ (∀ (att2 : Nat → Option String) (c : String),
      att2 base = none → att2 (base + 1) = none → att2 (base + 2) = some c →
      attemptLoop att2 base 3
        = (some c, [Ev.attempt base, Ev.sleep2, Ev.attempt (base + 1),
                    Ev.sleep2, Ev.attempt (base + 2)]))
  ∧ (∀ (att2 : Nat → Option String) (c : String), att2 base = some c →
      sendWithRetry att2 choices (fuel + 1) base ci
        = (SendOutcome.returned (some c), [Ev.attempt base])) := by
  have hround : attemptLoop attempts base 3
      = (none, [Ev.attempt base, Ev.sleep2, Ev.attempt (base + 1),
                Ev.sleep2, Ev.attempt (base + 2)]) := by
    rw [show (3 : Nat) = 2 + 1 from rfl, attemptLoop_succ, h0]
    rw [show (2 : Nat) = 1 + 1 from rfl, attemptLoop_succ, h1]
    rw [attemptLoop_succ, h2]
    rfl
  refine ⟨hround, ?_, ?_, ?_, ?_, ?_, ?_, ?_⟩
  · intro hc
    rw [sendWithRetry_succ, hround, hc]
    rfl
  · intro hc
    rw [sendWithRetry_succ, hround, hc]
    rfl
  · intro hcs hcq
    rw [sendWithRetry_succ, hround]
    simp only [if_neg hcs, if_neg hcq]
    rfl
  · intro att2 c hc
    rw [show (3 : Nat) = 2 + 1 from rfl, attemptLoop_succ, hc]
  · intro att2 c hc0 hc1
    rw [show (3 : Nat) = 2 + 1 from rfl, attemptLoop_succ, hc0]
    rw [show (2 : Nat) = 1 + 1 from rfl, attemptLoop_succ, hc1]
    rfl
  · intro att2 c hc0 hc1 hc2
    rw [show (3 : Nat) = 2 + 1 from rfl, attemptLoop_succ, hc0]
    rw [show (2 : Nat) = 1 + 1 from rfl, attemptLoop_succ, hc1]
    rw [attemptLoop_succ, hc2]
    rfl
  · intro att2 c hc
    rw [sendWithRetry_succ]
    rw [show (3 : Nat) = 2 + 1 from rfl, attemptLoop_succ, hc]

/-- **C6, witness**: three failing attempts and the answer `"s"` produce
one escalation after the third attempt and a skipped (null) result. -/
theorem c6_witness :
    sendWithRetry (fun _ => none) (fun _ => "s") 1 0 0
      = (SendOutcome.returned none,
         [Ev.attempt 0, Ev.sleep2, Ev.attempt 1, Ev.sleep2, Ev.attempt 2,
          Ev.escalate]) :=
  (c6_retry_policy (fun _ => none) (fun _ => "s") 0 0 0 rfl rfl rfl).2.1 (by decide)

/-- **C7.**  Stream accumulation is insensitive to malformed chunks: a
`data:`-prefixed line whose payload is not the terminator and fails JSON
parsing leaves the accumulator state unchanged, so inserting it anywhere
between valid lines yields the same accumulated state (content,
reasoning and usage); moreover chunks with absent fields are tolerated:
a parsed chunk with no usage and no choices, or whose first choice has
no delta fields, also leaves the state unchanged. -/
theorem c7_stream_robustness (parse : String → Option Chunk)
    (pre post : List String) (bad : String)
    (hpref : strStarts bad.data "data: ".data = true)
    (hnd : (⟨bad.data.drop 6⟩ : String) ≠ "[DONE]")
    (hbad : parse ⟨bad.data.drop 6⟩ = none) :
    streamAccumulate parse (pre ++ bad :: post) = streamAccumulate parse (pre ++ post)
  ∧ (∀ (st : StreamState) (line : String),
      strStarts line.data "data: ".data = true →
      (⟨line.data.drop 6⟩ : String) ≠ "[DONE]" →
      parse ⟨line.data.drop 6⟩ = some ⟨none, []⟩ →
      processLine parse st line = st)
  ∧ (∀ (st : StreamState) (line : String),
      strStarts line.data "data: ".data = true →
      (⟨line.data.drop 6⟩ : String) ≠ "[DONE]" →
      parse ⟨line.data.drop 6⟩ = some ⟨none, [⟨none⟩]⟩ →
      processLine parse st line = st) := by
  have hskip : ∀ st : StreamState, processLine parse st bad = st := by
    intro st
    have d2 : bad ≠ "" := fun h => absurd (h ▸ hpref) (by decide)
    obtain ⟨sc, sr, su, sd⟩ := st
    cases sd with
    | true => simp [processLine]
    | false => simp [processLine, d2, hpref, hnd, hbad]
  refine ⟨?_, ?_, ?_⟩
  · unfold streamAccumulate
    rw [List.foldl_append, List.foldl_append, List.foldl_cons, hskip]
  · intro st line hl1 hl2 hl3
    have d2 : line ≠ "" := fun h => absurd (h ▸ hl1) (by decide)
    obtain ⟨sc, sr, su, sd⟩ := st
    cases sd with
    | true => simp [processLine]
    | false => simp [processLine, d2, hl1, hl2, hl3]
  · intro st line hl1 hl2 hl3
    have d2 : line ≠ "" := fun h => absurd (h ▸ hl1) (by decide)
    obtain ⟨sc, sr, su, sd⟩ := st
    cases sd with
    | true => simp [processLine]
    | false => simp [processLine, d2, hl1, hl2, hl3, strAppendEmpty]

/-- **C7, witness**: a malformed chunk between two valid chunks does not
change the accumulated result, which concatenates the two deltas. -/
theorem c7_witness :
    streamAccumulate
        (fun s =>
          if s = "A" then some ⟨none, [⟨some ⟨some "He", none⟩⟩]⟩
          else if s = "B" then some ⟨none, [⟨some ⟨some "llo", none⟩⟩]⟩
          else none)
        ["data: A", "data: \x7bbroken", "data: B"]
      = streamAccumulate
        (fun s =>
          if s = "A" then some ⟨none, [⟨some ⟨some "He", none⟩⟩]⟩
          else if s = "B" then some ⟨none, [⟨some ⟨some "llo", none⟩⟩]⟩
          else none)
        ["data: A", "data: B"]
  ∧ (streamAccumulate
        (fun s =>
          if s = "A" then some ⟨none, [⟨some ⟨some "He", none⟩⟩]⟩
          else if s = "B" then some ⟨none, [⟨some ⟨some "llo", none⟩⟩]⟩
          else none)
        ["data: A", "data: B"]).content = "Hello" := by
  constructor
  · exact (c7_stream_robustness
      (fun s =>
        if s = "A" then some ⟨none, [⟨some ⟨some "He", none⟩⟩]⟩
        else if s = "B" then some ⟨none, [⟨some ⟨some "llo", none⟩⟩]⟩
        else none)
      ["data: A"] ["data: B"] "data: \x7bbroken"
      (by decide) (by decide) (by decide)).1
  · decide

/-- Unfolding equation of `compressLoop` for a positive attempt budget. -/
theorem compressLoop_succ (rounds : Nat → Option (List String))
    (k idx : Nat) (facts : List String) :
    compressLoop rounds (k + 1) idx facts
      = match rounds idx with
        | some newFacts =>
          if newFacts ≠ [] ∧ 1200 ≤ totalLen newFacts then (newFacts, true, idx + 1)
          else compressLoop rounds k (idx + 1) facts
        | none => compressLoop rounds k (idx + 1) facts := rfl

/-- If the compaction loop changed the store, some round was accepted,
and that round's result had total length at least the 1200 floor. -/
theorem compressLoop_change_accepted (rounds : Nat → Option (List String)) :
    ∀ (k idx : Nat) (facts : List String),
      (compressLoop rounds k idx facts).1 ≠ facts →
      ∃ j nf, rounds j = some nf ∧ 1200 ≤ totalLen nf
        ∧ (compressLoop rounds k idx facts).1 = nf := by
  intro k
  induction k with
  | zero =>
    intro idx facts h
    exact absurd rfl h
  | succ k ih =>
    intro idx facts h
    rcases hr : rounds idx with _ | nf
    · rw [compressLoop_succ] at h ⊢
      simp only [hr] at h ⊢
      exact ih _ _ h
    · rw [compressLoop_succ] at h ⊢
      simp only [hr] at h ⊢
      by_cases hacc : nf ≠ [] ∧ 1200 ≤ totalLen nf
      · rw [if_pos hacc] at h ⊢
        exact ⟨idx, nf, hr, hacc.2, rfl⟩
      · rw [if_neg hacc] at h ⊢
        exact ih _ _ h

/-- **C8.**  Compaction/pruning floor: a round whose parsed result is
below the 1200-character floor, or whose response cannot be parsed as a
fact list (`none`), leaves the store unchanged by that round (the
compaction loop just moves to its next attempt, the pruning step keeps
the old facts); and whenever the store was changed, the installed list
came from a round whose total length is at least the floor. -/
theorem c8_compaction_floor (rounds : Nat → Option (List String))
    (k idx : Nat) (facts nf : List String) (r : Option (List String)) :
    (rounds idx = some nf → totalLen nf < 1200 →
      compressLoop rounds (k + 1) idx facts = compressLoop rounds k (idx + 1) facts)
  ∧ (rounds idx = none →
      compressLoop rounds (k + 1) idx facts = compressLoop rounds k (idx + 1) facts)
  ∧ ((compressLoop rounds k idx facts).1 ≠ facts →
      ∃ j nf2, rounds j = some nf2 ∧ 1200 ≤ totalLen nf2
        ∧ (compressLoop rounds k idx facts).1 = nf2)
  ∧ (∀ nf2, r = some nf2 → totalLen nf2 < 1200 → pruneStep facts r = facts)
  ∧ (r = none → pruneStep facts r = facts)
  ∧ (pruneStep facts r ≠ facts →
      ∃ nf2, r = some nf2 ∧ 1200 ≤ totalLen nf2 ∧ pruneStep facts r = nf2) := by
  refine ⟨?_, ?_, compressLoop_change_accepted rounds k idx facts, ?_, ?_, ?_⟩
  · intro hr hlow
    rw [compressLoop_succ]
    simp only [hr]
    rw [if_neg]
    intro hacc
    omega
  · intro hr
    rw [compressLoop_succ]
    simp only [hr]
  · intro nf2 hr hlow
    subst hr
    simp only [pruneStep]
    rw [if_neg]
    intro hacc
    omega
  · intro hr
    subst hr
    rfl
  · intro hch
    rcases hr : r with _ | nf2
    · subst hr
      exact absurd rfl hch
    · subst hr
      simp only [pruneStep] at hch ⊢
      by_cases hacc : nf2 ≠ [] ∧ 1200 ≤ totalLen nf2
      · rw [if_pos hacc] at hch ⊢
        exact ⟨nf2, rfl, hacc.2, rfl⟩
      · rw [if_neg hacc] at hch
        exact absurd rfl hch

/-- **C8, witness**: a round returning a short list is rejected and the
store is unchanged after the loop. -/
theorem c8_witness :
    compressLoop (fun _ => some ["short"]) 1 0 ["keep me"]
      = compressLoop (fun _ => some ["short"]) 0 1 ["keep me"]
  ∧ (compressLoop (fun _ => some ["short"]) 1 0 ["keep me"]).1 = ["keep me"] := by
  have h := (c8_compaction_floor (fun _ => some ["short"]) 0 0 ["keep me"]
      ["short"] none).1 rfl (by decide)
  exact ⟨h, by decide⟩

/-- **C9.**  The open-items digest filter: a todo line empty after
stripping its checkbox marker is dropped; a completed line with no
parseable completion date is dropped; a completed line whose date is more
than 7 days before "now" is dropped; a completed line dated at most
7 days before now is kept; an uncompleted (nonempty) line is always kept
regardless of any date; and the digest built by `buildTodoParts` contains
exactly the surviving lines of each diary entry, grouped under the
entry's date. -/
theorem c9_todo_aging (today : Nat × Nat × Nat) (todo : String) (y m d : Nat)
    (diaries : List (String × List String)) :
    ((stripChars (stripCheckbox todo.data)).isEmpty = true →
      keepTodo today todo = false)
  ∧ (isCompleted todo.data = true → findCompletionDate todo.data = none →
      keepTodo today todo = false)
  ∧ (isCompleted todo.data = true → findCompletionDate todo.data = some (y, m, d) →
      isValidDate y m d = false → keepTodo today todo = false)
  ∧ (isCompleted todo.data = true → findCompletionDate todo.data = some (y, m, d) →
      isValidDate y m d = true →
      7 < (dateOrd today.1 today.2.1 today.2.2 : Int) - dateOrd y m d →
      keepTodo today todo = false)
  ∧ ((stripChars (stripCheckbox todo.data)).isEmpty = false →
      isCompleted todo.data = true → findCompletionDate todo.data = some (y, m, d) →
      isValidDate y m d = true →
      (dateOrd today.1 today.2.1 today.2.2 : Int) - dateOrd y m d ≤ 7 →
      keepTodo today todo = true)
  ∧ ((stripChars (stripCheckbox todo.data)).isEmpty = false →
      isCompleted todo.data = false → keepTodo today todo = true)
  ∧ (∀ sec ∈ buildTodoParts today diaries, ∀ t ∈ sec.2, keepTodo today t = true)
  ∧ (∀ pr ∈ diaries, ∀ t ∈ pr.2, keepTodo today t = true →
      ∃ sec ∈ buildTodoParts today diaries, sec.1 = pr.1 ∧ t ∈ sec.2) := by
  refine ⟨?_, ?_, ?_, ?_, ?_, ?_, ?_, ?_⟩
  · intro h1
    simp [keepTodo, h1]
  · intro hcmp hfind
    cases h1 : (stripChars (stripCheckbox todo.data)).isEmpty with
    | true => simp [keepTodo, h1]
    | false => simp [keepTodo, h1, hcmp, hfind]
  · intro hcmp hfind hval
    cases h1 : (stripChars (stripCheckbox todo.data)).isEmpty with
    | true => simp [keepTodo, h1]
    | false => simp [keepTodo, h1, hcmp, hfind, hval]
  · intro hcmp hfind hval hlt
    cases h1 : (stripChars (stripCheckbox todo.data)).isEmpty with
    | true => simp [keepTodo, h1]
    | false =>
      simp only [keepTodo, h1, Bool.false_eq_true, if_false, hcmp, if_true, hfind,
        hval, decide_eq_false_iff_not]
      exact not_le.mpr hlt
  · intro h1 hcmp hfind hval hle
    simp only [keepTodo, h1, Bool.false_eq_true, if_false, hcmp, if_true, hfind,
      hval, decide_eq_true_eq]
    exact hle
  · intro h1 hcmp
    simp [keepTodo, h1, hcmp]
  · intro sec hsec t ht
    unfold buildTodoParts at hsec
    rw [List.mem_filterMap] at hsec
    obtain ⟨entry, hentry, hfe⟩ := hsec
    by_cases h1 : entry.2 = []
    · rw [if_pos h1] at hfe
      cases hfe
    · rw [if_neg h1] at hfe
      by_cases h2 : entry.2.filter (keepTodo today) = []
      · rw [if_pos h2] at hfe
        cases hfe
      · rw [if_neg h2] at hfe
        obtain rfl := Option.some.inj hfe
        exact (List.mem_filter.mp ht).2
  · intro pr hpr t ht hk
    refine ⟨(pr.1, pr.2.filter (keepTodo today)), ?_, rfl, ?_⟩
    · unfold buildTodoParts
      rw [List.mem_filterMap]
      refine ⟨pr, hpr, ?_⟩
      rw [if_neg (List.ne_nil_of_mem ht),
          if_neg (List.ne_nil_of_mem (List.mem_filter.mpr ⟨ht, hk⟩))]
    · exact List.mem_filter.mpr ⟨ht, hk⟩

/-- **C9, witness**: with "now" = 2026-10-12, a completed item dated
10 days earlier is excluded, one dated 5 days earlier is included, and an
uncompleted item is included. -/
theorem c9_witness :
    keepTodo (2026, 10, 12) "[x] pay bill ✅ 2026-10-02" = false
  ∧ keepTodo (2026, 10, 12) "[x] pay bill ✅ 2026-10-07" = true
  ∧ keepTodo (2026, 10, 12) "[ ] water plants" = true := by
  refine ⟨?_, ?_, ?_⟩
  · exact (c9_todo_aging (2026, 10, 12) "[x] pay bill ✅ 2026-10-02" 2026 10 2
      []).2.2.2.1 (by decide) (by decide) (by decide) (by decide)
  · exact (c9_todo_aging (2026, 10, 12) "[x] pay bill ✅ 2026-10-07" 2026 10 7
      []).2.2.2.2.1 (by decide) (by decide) (by decide) (by decide) (by decide)
  · exact (c9_todo_aging (2026, 10, 12) "[ ] water plants" 0 0 0
      []).2.2.2.2.2.1 (by decide) (by decide)

end DiaryAssistant
